import Mathlib

/-!
Shallow embedding of the Intcode virtual machine from
`src/year_2019/intcode_computer.rs`.

Rust panics become explicit `Except` errors.  Machine integers (`i64`) are
modelled as unbounded `Int`; Rust's truncating division and remainder are
`Int.tdiv` / `Int.tmod`.  The mpsc input/output channels of a single
computer are modelled as optional value queues (`Option (List Int)`):
`none` means no channel attached, and an exhausted input list plays the
role of a closed channel.
-/

namespace Intcode

/-- The fatal conditions of the VM (Rust `panic!` sites). -/
inductive IntcodeError where
  | invalidOpcode (opcode : Int)
  | illegalWriteMode
  | invalidParameterMode (digit : Int)
  | negativeAddress
  | expectedAddress
  | noInputChannel
  | noOutputChannel
  | channelClosed
  deriving DecidableEq, Repr

/-- `get_digit` from the source: digit of `number` at zero-indexed decimal
`position` (Rust `/` and `%` are truncating, hence `tdiv`/`tmod`). -/
def get_digit (number : Int) (position : Nat) : Int :=
  (number.tdiv (10 ^ position : Int)).tmod 10

/-- `Opcode::from`: the low two decimal digits of the instruction header. -/
def opcodeOf (instruction_header : Int) : Int :=
  get_digit instruction_header 1 * 10 + get_digit instruction_header 0

/-- `ParameterMode` variants. -/
inductive ParameterMode where
  | PositionMode
  | ImmediateMode
  | RelativeMode
  deriving DecidableEq, Repr

/-- `ParameterMode::from(&ParameterParser)`: the mode digit for parameter
slot `parameters_read` is the decimal digit of the header at position
`2 + parameters_read`; anything other than 0/1/2 is a fatal decode error. -/
def parameterModeOf (instruction_header : Int) (parameters_read : Nat) :
    Except IntcodeError ParameterMode :=
  let d := get_digit instruction_header (2 + parameters_read)
  if d = 0 then Except.ok ParameterMode.PositionMode
  else if d = 1 then Except.ok ParameterMode.ImmediateMode
  else if d = 2 then Except.ok ParameterMode.RelativeMode
  else Except.error (IntcodeError.invalidParameterMode d)

/-- `IntcodeParameter` variants (Position / Value i.e. immediate / Relative). -/
inductive IntcodeParameter where
  | Position (address : Nat)
  | Value (value : Int)
  | Relative (address : Int)
  deriving DecidableEq, Repr

/-- `ParameterParser::parse_next` for the parameter slot `parameters_read`:
read-capable parameter, all three modes legal.  The Rust
`parameter.try_into().unwrap()` (i64 → usize) fails on a negative operand in
position mode. -/
def parse_next (instruction_header : Int) (parameters_read : Nat) (parameter : Int) :
    Except IntcodeError IntcodeParameter :=
  match parameterModeOf instruction_header parameters_read with
  | Except.error e => Except.error e
  | Except.ok ParameterMode.PositionMode =>
      if parameter < 0 then Except.error IntcodeError.negativeAddress
      else Except.ok (IntcodeParameter.Position parameter.toNat)
  | Except.ok ParameterMode.ImmediateMode => Except.ok (IntcodeParameter.Value parameter)
  | Except.ok ParameterMode.RelativeMode => Except.ok (IntcodeParameter.Relative parameter)

/-- `ParameterParser::parse_writeonly`: like `parse_next` but immediate mode
panics (`ImmediateMode invalid for writeonly parameter`). -/
def parse_writeonly (instruction_header : Int) (parameters_read : Nat) (parameter : Int) :
    Except IntcodeError IntcodeParameter :=
  match parameterModeOf instruction_header parameters_read with
  | Except.error e => Except.error e
  | Except.ok ParameterMode.PositionMode =>
      if parameter < 0 then Except.error IntcodeError.negativeAddress
      else Except.ok (IntcodeParameter.Position parameter.toNat)
  | Except.ok ParameterMode.ImmediateMode => Except.error IntcodeError.illegalWriteMode
  | Except.ok ParameterMode.RelativeMode => Except.ok (IntcodeParameter.Relative parameter)

/-- `IntcodeProgram`: the growable memory, a vector of i64. -/
structure IntcodeProgram where
  data : List Int
  deriving DecidableEq, Repr

/-- `IntcodeProgram::get`: `*self.data.get(address).unwrap_or(&0)`. -/
def IntcodeProgram.get (p : IntcodeProgram) (address : Nat) : Int :=
  p.data.getD address 0

/-- `IntcodeProgram::replace`: zero-fill `resize(address + 1, 0)` when the
current length is ≤ `address`, then store `replacement` at `address`. -/
def IntcodeProgram.replace (p : IntcodeProgram) (address : Nat) (replacement : Int) :
    IntcodeProgram :=
  let data :=
    if p.data.length ≤ address then
      p.data ++ List.replicate (address + 1 - p.data.length) 0
    else p.data
  { data := data.set address replacement }

/-- `IntcodeComputer` state: memory, instruction pointer, relative base and
the optional I/O channels (modelled as value queues). -/
structure IntcodeComputer where
  memory : IntcodeProgram
  instruction_pointer : Nat
  relative_base : Int
  input : Option (List Int)
  output : Option (List Int)
  deriving DecidableEq, Repr

/-- `From<&IntcodeProgram> for IntcodeComputer`: fresh computer with a copy
of the program, pointer 0, relative base 0, no channels. -/
def IntcodeComputer.fromProgram (program : IntcodeProgram) : IntcodeComputer :=
  { memory := program
    instruction_pointer := 0
    relative_base := 0
    input := none
    output := none }

/-- `IntcodeComputer::load`: replace memory with a copy of the program and
reset pointer and relative base (channels are left as they are). -/
def IntcodeComputer.load (c : IntcodeComputer) (program : IntcodeProgram) : IntcodeComputer :=
  { c with memory := program, instruction_pointer := 0, relative_base := 0 }

/-- `IntcodeInstruction` variants. -/
inductive IntcodeInstruction where
  | Add (one two out : IntcodeParameter)
  | Multiply (one two out : IntcodeParameter)
  | Input (toP : IntcodeParameter)
  | Output (fromP : IntcodeParameter)
  | JumpIfTrue (test jump_to : IntcodeParameter)
  | JumpIfFalse (test jump_to : IntcodeParameter)
  | LessThan (one two out : IntcodeParameter)
  | Equals (one two out : IntcodeParameter)
  | RelativeBaseOffset (offset : IntcodeParameter)
  | Halt
  deriving DecidableEq, Repr

/-- `IntcodeInstruction::length`: encoded length in memory cells. -/
def IntcodeInstruction.length : IntcodeInstruction → Nat
  | .Add _ _ _ => 4
  | .Multiply _ _ _ => 4
  | .Input _ => 2
  | .Output _ => 2
  | .JumpIfTrue _ _ => 3
  | .JumpIfFalse _ _ => 3
  | .LessThan _ _ _ => 4
  | .Equals _ _ _ => 4
  | .RelativeBaseOffset _ => 2
  | .Halt => 1

/-- `From<&IntcodeComputer> for IntcodeInstruction`: decode the instruction
at the current pointer.  The Rust parser object reads parameter slots in
order, so the slot indices here are 0, 1, 2 in call order.  An opcode
outside the table panics (`Invalid Opcode encountered`). -/
def IntcodeInstruction.decode (state : IntcodeComputer) :
    Except IntcodeError IntcodeInstruction :=
  let instruction_header := state.memory.get state.instruction_pointer
  let opcode := opcodeOf instruction_header
  if opcode = 1 then do
    let one ← parse_next instruction_header 0 (state.memory.get (state.instruction_pointer + 1))
    let two ← parse_next instruction_header 1 (state.memory.get (state.instruction_pointer + 2))
    let out ← parse_writeonly instruction_header 2 (state.memory.get (state.instruction_pointer + 3))
    pure (IntcodeInstruction.Add one two out)
  else if opcode = 2 then do
    let one ← parse_next instruction_header 0 (state.memory.get (state.instruction_pointer + 1))
    let two ← parse_next instruction_header 1 (state.memory.get (state.instruction_pointer + 2))
    let out ← parse_writeonly instruction_header 2 (state.memory.get (state.instruction_pointer + 3))
    pure (IntcodeInstruction.Multiply one two out)
  else if opcode = 3 then do
    let toP ← parse_writeonly instruction_header 0 (state.memory.get (state.instruction_pointer + 1))
    pure (IntcodeInstruction.Input toP)
  else if opcode = 4 then do
    let fromP ← parse_next instruction_header 0 (state.memory.get (state.instruction_pointer + 1))
    pure (IntcodeInstruction.Output fromP)
  else if opcode = 5 then do
    let test ← parse_next instruction_header 0 (state.memory.get (state.instruction_pointer + 1))
    let jump_to ← parse_next instruction_header 1 (state.memory.get (state.instruction_pointer + 2))
    pure (IntcodeInstruction.JumpIfTrue test jump_to)
  else if opcode = 6 then do
    let test ← parse_next instruction_header 0 (state.memory.get (state.instruction_pointer + 1))
    let jump_to ← parse_next instruction_header 1 (state.memory.get (state.instruction_pointer + 2))
    pure (IntcodeInstruction.JumpIfFalse test jump_to)
  else if opcode = 7 then do
    let one ← parse_next instruction_header 0 (state.memory.get (state.instruction_pointer + 1))
    let two ← parse_next instruction_header 1 (state.memory.get (state.instruction_pointer + 2))
    let out ← parse_writeonly instruction_header 2 (state.memory.get (state.instruction_pointer + 3))
    pure (IntcodeInstruction.LessThan one two out)
  else if opcode = 8 then do
    let one ← parse_next instruction_header 0 (state.memory.get (state.instruction_pointer + 1))
    let two ← parse_next instruction_header 1 (state.memory.get (state.instruction_pointer + 2))
    let out ← parse_writeonly instruction_header 2 (state.memory.get (state.instruction_pointer + 3))
    pure (IntcodeInstruction.Equals one two out)
  else if opcode = 9 then do
    let offset ← parse_next instruction_header 0 (state.memory.get (state.instruction_pointer + 1))
    pure (IntcodeInstruction.RelativeBaseOffset offset)
  else if opcode = 99 then pure IntcodeInstruction.Halt
  else Except.error (IntcodeError.invalidOpcode opcode)

/-- `IntcodeParameter::get_address`: `Some` address for position and relative
parameters (the Rust `try_into().unwrap()` fails on a negative resolved
relative address), `None` for an immediate value. -/
def IntcodeParameter.get_address (p : IntcodeParameter) (c : IntcodeComputer) :
    Except IntcodeError (Option Nat) :=
  match p with
  | .Position address => Except.ok (some address)
  | .Value _ => Except.ok none
  | .Relative address =>
      if c.relative_base + address < 0 then Except.error IntcodeError.negativeAddress
      else Except.ok (some (c.relative_base + address).toNat)

/-- `IntcodeParameter::get_value`. -/
def IntcodeParameter.get_value (p : IntcodeParameter) (c : IntcodeComputer) :
    Except IntcodeError Int :=
  match p with
  | .Position address => Except.ok (c.memory.get address)
  | .Value value => Except.ok value
  | .Relative address =>
      if c.relative_base + address < 0 then Except.error IntcodeError.negativeAddress
      else Except.ok (c.memory.get (c.relative_base + address).toNat)

/-- The `.expect("... must be an address")` pattern of `run()`: demand the
`Some` of `get_address`. -/
def expectAddress (r : Except IntcodeError (Option Nat)) : Except IntcodeError Nat :=
  match r with
  | Except.error e => Except.error e
  | Except.ok none => Except.error IntcodeError.expectedAddress
  | Except.ok (some a) => Except.ok a

/-- The pointer-advance epilogue of one `run()` loop iteration: the pointer
advances by the instruction length exactly when it still equals its value
from before the instruction executed. -/
def IntcodeComputer.advance (c : IntcodeComputer)
    (instruction_pointer_before : Nat) (instruction_length : Nat) : IntcodeComputer :=
  if instruction_pointer_before = c.instruction_pointer then
    { c with instruction_pointer := c.instruction_pointer + instruction_length }
  else c

/-- Result of one iteration of the `run()` loop. -/
inductive StepResult where
  | halted (c : IntcodeComputer)
  | running (c : IntcodeComputer)
  deriving DecidableEq, Repr

/-- One iteration of `IntcodeComputer::run`: decode, execute, then the
pointer-advance check. -/
def IntcodeComputer.step (c : IntcodeComputer) : Except IntcodeError StepResult := do
  let next_instruction ← IntcodeInstruction.decode c
  let instruction_pointer_before := c.instruction_pointer
  let instruction_length := next_instruction.length
  match next_instruction with
  | IntcodeInstruction.Add one two out => do
      let v1 ← one.get_value c
      let v2 ← two.get_value c
      let output_address ← expectAddress (out.get_address c)
      let c1 := { c with memory := c.memory.replace output_address (v1 + v2) }
      pure (StepResult.running (c1.advance instruction_pointer_before instruction_length))
  | IntcodeInstruction.Multiply one two out => do
      let v1 ← one.get_value c
      let v2 ← two.get_value c
      let output_address ← expectAddress (out.get_address c)
      let c1 := { c with memory := c.memory.replace output_address (v1 * v2) }
      pure (StepResult.running (c1.advance instruction_pointer_before instruction_length))
  | IntcodeInstruction.Input toP =>
      match c.input with
      | none => Except.error IntcodeError.noInputChannel
      | some [] => Except.error IntcodeError.channelClosed
      | some (input_value :: rest) => do
          let to_address ← expectAddress (toP.get_address c)
          let c1 := { c with
            memory := c.memory.replace to_address input_value
            input := some rest }
          pure (StepResult.running (c1.advance instruction_pointer_before instruction_length))
  | IntcodeInstruction.Output fromP => do
      let output_value ← fromP.get_value c
      match c.output with
      | none => Except.error IntcodeError.noOutputChannel
      | some outs =>
          let c1 := { c with output := some (outs ++ [output_value]) }
          pure (StepResult.running (c1.advance instruction_pointer_before instruction_length))
  | IntcodeInstruction.JumpIfTrue test jump_to => do
      let t ← test.get_value c
      if t ≠ 0 then do
        let j ← jump_to.get_value c
        if j < 0 then Except.error IntcodeError.negativeAddress
        else
          let c1 := { c with instruction_pointer := j.toNat }
          pure (StepResult.running (c1.advance instruction_pointer_before instruction_length))
      else
        pure (StepResult.running (c.advance instruction_pointer_before instruction_length))
  | IntcodeInstruction.JumpIfFalse test jump_to => do
      let t ← test.get_value c
      if t = 0 then do
        let j ← jump_to.get_value c
        if j < 0 then Except.error IntcodeError.negativeAddress
        else
          let c1 := { c with instruction_pointer := j.toNat }
          pure (StepResult.running (c1.advance instruction_pointer_before instruction_length))
      else
        pure (StepResult.running (c.advance instruction_pointer_before instruction_length))
  | IntcodeInstruction.LessThan one two out => do
      let v1 ← one.get_value c
      let v2 ← two.get_value c
      let output_value : Int := if v1 < v2 then 1 else 0
      let output_address ← expectAddress (out.get_address c)
      let c1 := { c with memory := c.memory.replace output_address output_value }
      pure (StepResult.running (c1.advance instruction_pointer_before instruction_length))
  | IntcodeInstruction.Equals one two out => do
      let v1 ← one.get_value c
      let v2 ← two.get_value c
      let output_value : Int := if v1 = v2 then 1 else 0
      let output_address ← expectAddress (out.get_address c)
      let c1 := { c with memory := c.memory.replace output_address output_value }
      pure (StepResult.running (c1.advance instruction_pointer_before instruction_length))
  | IntcodeInstruction.RelativeBaseOffset offsetP => do
      let offset ← offsetP.get_value c
      let c1 := { c with relative_base := c.relative_base + offset }
      pure (StepResult.running (c1.advance instruction_pointer_before instruction_length))
  | IntcodeInstruction.Halt => pure (StepResult.halted c)

/-- Fuel-bounded unfolding of the unbounded `run()` loop: `some` final state
on Halt, `none` when the fuel runs out before the machine halts. -/
def IntcodeComputer.run : Nat → IntcodeComputer → Except IntcodeError (Option IntcodeComputer)
  | 0, _ => Except.ok none
  | fuel + 1, c =>
    match c.step with
    | Except.error e => Except.error e
    | Except.ok (StepResult.halted c1) => Except.ok (some c1)
    | Except.ok (StepResult.running c1) => IntcodeComputer.run fuel c1

/-- The jump behaviour of a decoded instruction in state `c`: `some target`
when the instruction is a jump whose test succeeds and whose target operand
resolves to the non-negative value `target`, `none` otherwise. -/
def jumpResolved (c : IntcodeComputer) : IntcodeInstruction → Option Nat
  | IntcodeInstruction.JumpIfTrue test jump_to =>
    match test.get_value c, jump_to.get_value c with
    | Except.ok t, Except.ok j => if t ≠ 0 ∧ 0 ≤ j then some j.toNat else none
    | _, _ => none
  | IntcodeInstruction.JumpIfFalse test jump_to =>
    match test.get_value c, jump_to.get_value c with
    | Except.ok t, Except.ok j => if t = 0 ∧ 0 ≤ j then some j.toNat else none
    | _, _ => none
  | _ => none

/-- Decimal value of a digit string, most significant digit first. -/
def digitsToNat (cs : List Char) : Nat :=
  cs.foldl (fun acc c => acc * 10 + (c.toNat - 48)) 0

/-- Digit-string check of Rust `str::parse::<i64>`: non-empty, all ASCII
digits. -/
def isDigits (cs : List Char) : Bool :=
  !cs.isEmpty && cs.all Char.isDigit

/-- Model of Rust `str::parse::<i64>` (on unbounded `Int`): an optional
`+`/`-` sign followed by one or more ASCII digits, nothing else. -/
def parseI64 (cs : List Char) : Option Int :=
  match cs with
  | [] => none
  | c :: rest =>
    if c = '+' then if isDigits rest then some (digitsToNat rest : Int) else none
    else if c = '-' then if isDigits rest then some (-(digitsToNat rest : Int)) else none
    else if isDigits (c :: rest) then some (digitsToNat (c :: rest) : Int) else none

/-- Rust `str::trim` at the character-list level: drop whitespace from both
ends. -/
def trimChars (cs : List Char) : List Char :=
  ((cs.dropWhile Char.isWhitespace).reverse.dropWhile Char.isWhitespace).reverse

/-- Rust `str::split(',')` at the character-list level: maximal runs between
commas, so `n` commas yield `n + 1` (possibly empty) tokens. -/
def splitOnComma : List Char → List (List Char)
  | [] => [[]]
  | c :: rest =>
    if c = ',' then [] :: splitOnComma rest
    else
      match splitOnComma rest with
      | [] => [[c]]
      | t :: ts => (c :: t) :: ts

/-- The `map(parse).collect()` of `From<&str> for IntcodeProgram`: parse
every token, failing when any token fails (the Rust code panics there). -/
def parseAll : List (List Char) → Option (List Int)
  | [] => some []
  | t :: ts =>
    match parseI64 t, parseAll ts with
    | some v, some vs => some (v :: vs)
    | _, _ => none

/-- `From<&str> for IntcodeProgram`: trim the text, split it on commas and
parse each token as an integer. -/
def IntcodeProgram.fromText (text : List Char) : Option IntcodeProgram :=
  (parseAll (splitOnComma (trimChars text))).map IntcodeProgram.mk

/-- Spec-side form of a comma-separated token sequence: the tokens joined by
single `,` separators. -/
def joinComma : List (List Char) → List Char
  | [] => []
  | [t] => t
  | t :: ts => t ++ ',' :: joinComma ts

/-- Spec-side: `cs` is a signed decimal rendering of the integer `x` — an
optional sign followed by at least one decimal digit. -/
def SignedDecimal (cs : List Char) (x : Int) : Prop :=
  ∃ ds : List Char, ds ≠ [] ∧ (∀ c ∈ ds, c.isDigit) ∧
    ((cs = ds ∧ x = (digitsToNat ds : Int)) ∨
     (cs = '+' :: ds ∧ x = (digitsToNat ds : Int)) ∨
     (cs = '-' :: ds ∧ x = -(digitsToNat ds : Int)))

end Intcode

namespace Intcode

/-! ### Helper lemmas -/

theorem exceptBind_ok {ε α β : Type} (a : α) (f : α → Except ε β) :
    (Except.ok a >>= f : Except ε β) = f a := rfl

theorem exceptBind_error {ε α β : Type} (e : ε) (f : α → Except ε β) :
    ((Except.error e : Except ε α) >>= f : Except ε β) = Except.error e := rfl

theorem exceptPure {ε α : Type} (a : α) : (pure a : Except ε α) = Except.ok a := rfl

/-! ### Claims -/

/-- C4: `get` is total and returns 0 beyond the current extent and the stored
value otherwise; `replace` zero-fills up to and including the target address
when it lies beyond the extent and then stores the value (so the new length
is `max` of the old length and `address + 1`, the stored cell reads back,
and every other cell reads as before — in particular 0 in the zero-filled
gap); the length never decreases across `replace` (`get` does not mutate at
all, being a pure function of the program). -/
theorem memory_get_replace_contract (p : IntcodeProgram) (address : Nat) (value : Int) :
    (p.data.length ≤ address → p.get address = 0) ∧
    (∀ h : address < p.data.length, p.get address = p.data.get ⟨address, h⟩) ∧
    (p.replace address value).data.length = max p.data.length (address + 1) ∧
    (p.replace address value).get address = value ∧
    (∀ b, b ≠ address → (p.replace address value).get b = p.get b) ∧
    p.data.length ≤ (p.replace address value).data.length := by
  refine ⟨?_, ?_, ?_, ?_, ?_, ?_⟩
  · intro h
    simp [IntcodeProgram.get, List.getElem?_eq_none h]
  · intro h
    simp [IntcodeProgram.get, List.getD_eq_getElem?_getD, List.getElem?_eq_getElem h]
  · by_cases hc : p.data.length ≤ address <;>
      simp [IntcodeProgram.replace, hc] <;> omega
  · by_cases hc : p.data.length ≤ address
    · simp only [IntcodeProgram.replace, hc, if_true, IntcodeProgram.get,
        List.getD_eq_getElem?_getD]
      rw [List.getElem?_set_self (by simp; omega)]
      rfl
    · simp only [IntcodeProgram.replace, hc, if_false, IntcodeProgram.get,
        List.getD_eq_getElem?_getD]
      rw [List.getElem?_set_self (by omega)]
      rfl
  · intro b hb
    by_cases hc : p.data.length ≤ address
    · simp only [IntcodeProgram.replace, hc, if_true, IntcodeProgram.get,
        List.getD_eq_getElem?_getD, List.getElem?_set_ne (Ne.symm hb)]
      by_cases hbl : b < p.data.length
      · rw [List.getElem?_append_left hbl]
      · rw [List.getElem?_append_right (by omega), List.getElem?_replicate,
          List.getElem?_eq_none (by omega)]
        split <;> rfl
    · simp only [IntcodeProgram.replace, hc, if_false, IntcodeProgram.get,
        List.getD_eq_getElem?_getD, List.getElem?_set_ne (Ne.symm hb)]
  · by_cases hc : p.data.length ≤ address <;>
      simp [IntcodeProgram.replace, hc]

/-- C4 witness: the contract applied to the concrete program `[5, 7]` at
address 4 with value 9 (an out-of-extent write, exercising the zero-fill). -/
theorem memory_get_replace_contract_witness :
    (IntcodeProgram.mk [5, 7]).replace 4 9 = IntcodeProgram.mk [5, 7, 0, 0, 9] ∧
    ((IntcodeProgram.mk [5, 7]).replace 4 9).data.length =
      max (IntcodeProgram.mk [5, 7]).data.length (4 + 1) ∧
    ((IntcodeProgram.mk [5, 7]).replace 4 9).get 4 = 9 ∧
    ((IntcodeProgram.mk [5, 7]).replace 4 9).get 3 = (IntcodeProgram.mk [5, 7]).get 3 ∧
    (IntcodeProgram.mk [5, 7]).get 3 = 0 :=
  ⟨by decide, (memory_get_replace_contract (IntcodeProgram.mk [5, 7]) 4 9).2.2.1,
    (memory_get_replace_contract (IntcodeProgram.mk [5, 7]) 4 9).2.2.2.1,
    (memory_get_replace_contract (IntcodeProgram.mk [5, 7]) 4 9).2.2.2.2.1 3 (by decide),
    by decide⟩

/-- C6: `load` resets the instruction pointer and the relative base to 0 and
replaces memory wholesale with the program.  The embedding is pure, so the
loaded memory is a value copy: mutating it afterwards acts exactly on that
copy (`replace` of the loaded memory equals `replace` of the program value,
and the original program value is never affected). -/
theorem load_resets (c : IntcodeComputer) (program : IntcodeProgram) :
    (c.load program).memory = program ∧
    (c.load program).instruction_pointer = 0 ∧
    (c.load program).relative_base = 0 ∧
    (∀ address value,
      ((c.load program).memory.replace address value) = program.replace address value) :=
  ⟨rfl, rfl, rfl, fun _ _ => rfl⟩

/-- C5: decoding a write-only parameter in immediate mode (mode digit 1)
fails with `illegalWriteMode`, while a read-capable parameter accepts all
three mode digits 0, 1, 2 (mode 0 additionally requires a non-negative raw
operand, since the Rust code converts it to `usize`). -/
theorem writeonly_immediate_illegal (instruction_header : Int) (parameters_read : Nat)
    (parameter : Int) :
    (get_digit instruction_header (2 + parameters_read) = 1 →
      parse_writeonly instruction_header parameters_read parameter =
        Except.error IntcodeError.illegalWriteMode ∧
      parse_next instruction_header parameters_read parameter =
        Except.ok (IntcodeParameter.Value parameter)) ∧
    (get_digit instruction_header (2 + parameters_read) = 0 → 0 ≤ parameter →
      parse_next instruction_header parameters_read parameter =
        Except.ok (IntcodeParameter.Position parameter.toNat) ∧
      parse_writeonly instruction_header parameters_read parameter =
        Except.ok (IntcodeParameter.Position parameter.toNat)) ∧
    (get_digit instruction_header (2 + parameters_read) = 2 →
      parse_next instruction_header parameters_read parameter =
        Except.ok (IntcodeParameter.Relative parameter) ∧
      parse_writeonly instruction_header parameters_read parameter =
        Except.ok (IntcodeParameter.Relative parameter)) := by
  refine ⟨fun h => ?_, fun h hp => ?_, fun h => ?_⟩
  · simp [parse_next, parse_writeonly, parameterModeOf, h]
  · simp [parse_next, parse_writeonly, parameterModeOf, h, not_lt.mpr hp]
  · simp [parse_next, parse_writeonly, parameterModeOf, h]

/-- C5 witness: header 102 puts mode digit 1 on slot 0 (immediate), header
202 puts mode digit 2, header 2 puts mode digit 0; the write-only decode of
an immediate slot fails while the read decode succeeds. -/
theorem writeonly_immediate_illegal_witness :
    (parse_writeonly 102 0 5 = Except.error IntcodeError.illegalWriteMode ∧
      parse_next 102 0 5 = Except.ok (IntcodeParameter.Value 5)) ∧
    (parse_next 2 0 5 = Except.ok (IntcodeParameter.Position 5) ∧
      parse_writeonly 2 0 5 = Except.ok (IntcodeParameter.Position 5)) ∧
    (parse_next 202 0 5 = Except.ok (IntcodeParameter.Relative 5) ∧
      parse_writeonly 202 0 5 = Except.ok (IntcodeParameter.Relative 5)) :=
  ⟨(writeonly_immediate_illegal 102 0 5).1 (by decide),
    (writeonly_immediate_illegal 2 0 5).2.1 (by decide) (by decide),
    (writeonly_immediate_illegal 202 0 5).2.2 (by decide)⟩

/-- C10: a mode digit other than 0, 1, 2 — including the negative digits a
negative instruction header produces under Rust's truncating `/` and `%` —
makes parameter decoding fail with `invalidParameterMode` instead of
defaulting to any addressing mode, on both the read and the write-only
entry points. -/
theorem invalid_parameter_mode_rejected (instruction_header : Int) (parameters_read : Nat)
    (parameter : Int)
    (h0 : get_digit instruction_header (2 + parameters_read) ≠ 0)
    (h1 : get_digit instruction_header (2 + parameters_read) ≠ 1)
    (h2 : get_digit instruction_header (2 + parameters_read) ≠ 2) :
    parameterModeOf instruction_header parameters_read =
      Except.error (IntcodeError.invalidParameterMode
        (get_digit instruction_header (2 + parameters_read))) ∧
    parse_next instruction_header parameters_read parameter =
      Except.error (IntcodeError.invalidParameterMode
        (get_digit instruction_header (2 + parameters_read))) ∧
    parse_writeonly instruction_header parameters_read parameter =
      Except.error (IntcodeError.invalidParameterMode
        (get_digit instruction_header (2 + parameters_read))) := by
  refine ⟨?_, ?_, ?_⟩ <;> simp [parameterModeOf, parse_next, parse_writeonly, h0, h1, h2]

/-- C10 witness: the negative header −1105 has mode digit −1 at slot 0
(`get_digit (-1105) 2 = -1`), and decoding rejects it. -/
theorem invalid_parameter_mode_rejected_witness :
    get_digit (-1105) 2 = -1 ∧
    parse_next (-1105) 0 3 = Except.error (IntcodeError.invalidParameterMode (-1)) ∧
    parse_writeonly (-1105) 0 3 = Except.error (IntcodeError.invalidParameterMode (-1)) :=
  ⟨by decide,
    (invalid_parameter_mode_rejected (-1105) 0 3 (by decide) (by decide) (by decide)).2.1,
    (invalid_parameter_mode_rejected (-1105) 0 3 (by decide) (by decide) (by decide)).2.2⟩

end Intcode

namespace Intcode

/-- Decoding a state whose current cell carries opcode 99 yields `Halt`. -/
theorem decode_of_opcode_99 (c : IntcodeComputer)
    (h : opcodeOf (c.memory.get c.instruction_pointer) = 99) :
    IntcodeInstruction.decode c = Except.ok IntcodeInstruction.Halt := by
  simp only [IntcodeInstruction.decode, h]
  norm_num
  rfl

/-- C3: an instruction whose opcode (the low two decimal digits of the
header word) is outside {1,…,9,99} makes the decoder fail with
`invalidOpcode`; the failure happens in `decode`, before the execute phase,
so the step produces no successor state at all — in this pure embedding the
memory of the failing step is exactly the pre-step memory. -/
theorem invalid_opcode_rejected (c : IntcodeComputer)
    (hop : opcodeOf (c.memory.get c.instruction_pointer) ∉
      ([1, 2, 3, 4, 5, 6, 7, 8, 9, 99] : List Int)) :
    IntcodeInstruction.decode c =
      Except.error (IntcodeError.invalidOpcode (opcodeOf (c.memory.get c.instruction_pointer))) ∧
    c.step =
      Except.error (IntcodeError.invalidOpcode (opcodeOf (c.memory.get c.instruction_pointer))) := by
  simp only [List.mem_cons, List.not_mem_nil, or_false, not_or] at hop
  obtain ⟨h1, h2, h3, h4, h5, h6, h7, h8, h9, h99⟩ := hop
  have hdec : IntcodeInstruction.decode c =
      Except.error (IntcodeError.invalidOpcode (opcodeOf (c.memory.get c.instruction_pointer))) := by
    simp only [IntcodeInstruction.decode]
    rw [if_neg h1, if_neg h2, if_neg h3, if_neg h4, if_neg h5, if_neg h6, if_neg h7,
      if_neg h8, if_neg h9, if_neg h99]
  refine ⟨hdec, ?_⟩
  simp only [IntcodeComputer.step]
  rw [hdec, exceptBind_error]

/-- C3 witness: the single-cell program `[42]` decodes to opcode 42 and both
decode and step fail with `invalidOpcode 42`. -/
theorem invalid_opcode_rejected_witness :
    IntcodeInstruction.decode (IntcodeComputer.fromProgram (IntcodeProgram.mk [42])) =
      Except.error (IntcodeError.invalidOpcode 42) ∧
    (IntcodeComputer.fromProgram (IntcodeProgram.mk [42])).step =
      Except.error (IntcodeError.invalidOpcode 42) :=
  invalid_opcode_rejected (IntcodeComputer.fromProgram (IntcodeProgram.mk [42])) (by decide)

/-- C2: on any computer whose memory holds only the single word 99 (pointer
at 0, any relative base and channels), one step immediately halts without
changing any state component — so `run` with fuel for one instruction ends
with exactly the original memory (in particular unchanged except possibly
address 0, which is also untouched). -/
theorem halt_program_halts_immediately (c : IntcodeComputer)
    (hmem : c.memory.data = [99]) (hip : c.instruction_pointer = 0) :
    c.step = Except.ok (StepResult.halted c) ∧
    IntcodeComputer.run 1 c = Except.ok (some c) := by
  have hget : c.memory.get c.instruction_pointer = 99 := by
    simp [IntcodeProgram.get, hmem, hip]
  have hdec : IntcodeInstruction.decode c = Except.ok IntcodeInstruction.Halt :=
    decode_of_opcode_99 c (by rw [hget]; decide)
  have hstep : c.step = Except.ok (StepResult.halted c) := by
    simp only [IntcodeComputer.step]
    rw [hdec, exceptBind_ok]
    rfl
  refine ⟨hstep, ?_⟩
  simp only [IntcodeComputer.run]
  rw [hstep]

/-- C2 witness: the computer freshly loaded with the program `[99]`. -/
theorem halt_program_halts_immediately_witness :
    (IntcodeComputer.fromProgram (IntcodeProgram.mk [99])).step =
      Except.ok (StepResult.halted (IntcodeComputer.fromProgram (IntcodeProgram.mk [99]))) ∧
    IntcodeComputer.run 1 (IntcodeComputer.fromProgram (IntcodeProgram.mk [99])) =
      Except.ok (some (IntcodeComputer.fromProgram (IntcodeProgram.mk [99]))) :=
  halt_program_halts_immediately (IntcodeComputer.fromProgram (IntcodeProgram.mk [99]))
    (by decide) (by decide)

end Intcode

namespace Intcode

theorem exceptError_ne_ok {ε α : Type} (e : ε) (a : α) :
    (Except.error e : Except ε α) ≠ Except.ok a := fun h => Except.noConfusion h

/-- C1 (amended): for every successful non-halting step, the new instruction
pointer is the resolved jump target when the step's instruction is a jump
whose condition holds and whose target differs from the jump's own address;
when the target equals the jump's own address the pointer is additionally
advanced by the jump's length (the code detects a taken jump by comparing
the pointer against its pre-step value, which a self-targeting jump
defeats); in every other case — non-jump instructions and jumps whose
condition fails — the pointer advances by exactly the instruction's encoded
length (4 for Add/Multiply/LessThan/Equals, 3 for the jumps, 2 for
Input/Output/RelativeBaseOffset). -/
theorem step_pointer_advance (c c' : IntcodeComputer) (inst : IntcodeInstruction)
    (hdec : IntcodeInstruction.decode c = Except.ok inst)
    (hstep : c.step = Except.ok (StepResult.running c')) :
    c'.instruction_pointer =
      match jumpResolved c inst with
      | some target =>
          if target = c.instruction_pointer then c.instruction_pointer + inst.length
          else target
      | none => c.instruction_pointer + inst.length := by
  cases inst with
  | Add one two out =>
    simp only [IntcodeComputer.step, hdec, exceptBind_ok] at hstep
    cases h1 : one.get_value c with
    | error e => rw [h1, exceptBind_error] at hstep; exact absurd hstep (exceptError_ne_ok _ _)
    | ok v1 =>
    rw [h1, exceptBind_ok] at hstep
    cases h2 : two.get_value c with
    | error e => rw [h2, exceptBind_error] at hstep; exact absurd hstep (exceptError_ne_ok _ _)
    | ok v2 =>
    rw [h2, exceptBind_ok] at hstep
    cases h3 : expectAddress (out.get_address c) with
    | error e => rw [h3, exceptBind_error] at hstep; exact absurd hstep (exceptError_ne_ok _ _)
    | ok addr =>
    rw [h3, exceptBind_ok] at hstep
    simp only [exceptPure, Except.ok.injEq, StepResult.running.injEq] at hstep
    subst hstep
    simp [jumpResolved, IntcodeComputer.advance, IntcodeInstruction.length]
  | Multiply one two out =>
    simp only [IntcodeComputer.step, hdec, exceptBind_ok] at hstep
    cases h1 : one.get_value c with
    | error e => rw [h1, exceptBind_error] at hstep; exact absurd hstep (exceptError_ne_ok _ _)
    | ok v1 =>
    rw [h1, exceptBind_ok] at hstep
    cases h2 : two.get_value c with
    | error e => rw [h2, exceptBind_error] at hstep; exact absurd hstep (exceptError_ne_ok _ _)
    | ok v2 =>
    rw [h2, exceptBind_ok] at hstep
    cases h3 : expectAddress (out.get_address c) with
    | error e => rw [h3, exceptBind_error] at hstep; exact absurd hstep (exceptError_ne_ok _ _)
    | ok addr =>
    rw [h3, exceptBind_ok] at hstep
    simp only [exceptPure, Except.ok.injEq, StepResult.running.injEq] at hstep
    subst hstep
    simp [jumpResolved, IntcodeComputer.advance, IntcodeInstruction.length]
  | Input toP =>
    simp only [IntcodeComputer.step, hdec, exceptBind_ok] at hstep
    cases hin : c.input with
    | none => simp only [hin] at hstep; exact absurd hstep (exceptError_ne_ok _ _)
    | some l =>
    cases l with
    | nil => simp only [hin] at hstep; exact absurd hstep (exceptError_ne_ok _ _)
    | cons v rest =>
    simp only [hin] at hstep
    cases h3 : expectAddress (toP.get_address c) with
    | error e => rw [h3, exceptBind_error] at hstep; exact absurd hstep (exceptError_ne_ok _ _)
    | ok addr =>
    rw [h3, exceptBind_ok] at hstep
    simp only [exceptPure, Except.ok.injEq, StepResult.running.injEq] at hstep
    subst hstep
    simp [jumpResolved, IntcodeComputer.advance, IntcodeInstruction.length]
  | Output fromP =>
    simp only [IntcodeComputer.step, hdec, exceptBind_ok] at hstep
    cases h1 : fromP.get_value c with
    | error e => rw [h1, exceptBind_error] at hstep; exact absurd hstep (exceptError_ne_ok _ _)
    | ok v =>
    rw [h1, exceptBind_ok] at hstep
    cases hout : c.output with
    | none => simp only [hout] at hstep; exact absurd hstep (exceptError_ne_ok _ _)
    | some outs =>
    simp only [hout, exceptPure, Except.ok.injEq, StepResult.running.injEq] at hstep
    subst hstep
    simp [jumpResolved, IntcodeComputer.advance, IntcodeInstruction.length]
  | JumpIfTrue test jump_to =>
    simp only [IntcodeComputer.step, hdec, exceptBind_ok] at hstep
    cases ht : test.get_value c with
    | error e => rw [ht, exceptBind_error] at hstep; exact absurd hstep (exceptError_ne_ok _ _)
    | ok t =>
    rw [ht, exceptBind_ok] at hstep
    by_cases htz : t = 0
    · rw [if_neg (show ¬t ≠ 0 by simp [htz])] at hstep
      simp only [exceptPure, Except.ok.injEq, StepResult.running.injEq] at hstep
      subst hstep
      cases hj : jump_to.get_value c <;>
        simp [jumpResolved, ht, hj, htz, IntcodeComputer.advance, IntcodeInstruction.length]
    · rw [if_pos htz] at hstep
      cases hj : jump_to.get_value c with
      | error e => rw [hj, exceptBind_error] at hstep; exact absurd hstep (exceptError_ne_ok _ _)
      | ok j =>
      rw [hj, exceptBind_ok] at hstep
      by_cases hneg : j < 0
      · rw [if_pos hneg] at hstep; exact absurd hstep (exceptError_ne_ok _ _)
      · rw [if_neg hneg] at hstep
        simp only [exceptPure, Except.ok.injEq, StepResult.running.injEq] at hstep
        subst hstep
        by_cases heq : Int.toNat j = c.instruction_pointer
        · simp [jumpResolved, ht, hj, htz, not_lt.mp hneg, IntcodeComputer.advance,
            IntcodeInstruction.length, heq]
        · simp [jumpResolved, ht, hj, htz, not_lt.mp hneg, IntcodeComputer.advance,
            IntcodeInstruction.length, heq, Ne.symm heq]
  | JumpIfFalse test jump_to =>
    simp only [IntcodeComputer.step, hdec, exceptBind_ok] at hstep
    cases ht : test.get_value c with
    | error e => rw [ht, exceptBind_error] at hstep; exact absurd hstep (exceptError_ne_ok _ _)
    | ok t =>
    rw [ht, exceptBind_ok] at hstep
    by_cases htz : t = 0
    · rw [if_pos htz] at hstep
      cases hj : jump_to.get_value c with
      | error e => rw [hj, exceptBind_error] at hstep; exact absurd hstep (exceptError_ne_ok _ _)
      | ok j =>
      rw [hj, exceptBind_ok] at hstep
      by_cases hneg : j < 0
      · rw [if_pos hneg] at hstep; exact absurd hstep (exceptError_ne_ok _ _)
      · rw [if_neg hneg] at hstep
        simp only [exceptPure, Except.ok.injEq, StepResult.running.injEq] at hstep
        subst hstep
        by_cases heq : Int.toNat j = c.instruction_pointer
        · simp [jumpResolved, ht, hj, htz, not_lt.mp hneg, IntcodeComputer.advance,
            IntcodeInstruction.length, heq]
        · simp [jumpResolved, ht, hj, htz, not_lt.mp hneg, IntcodeComputer.advance,
            IntcodeInstruction.length, heq, Ne.symm heq]
    · rw [if_neg htz] at hstep
      simp only [exceptPure, Except.ok.injEq, StepResult.running.injEq] at hstep
      subst hstep
      cases hj : jump_to.get_value c <;>
        simp [jumpResolved, ht, hj, htz, IntcodeComputer.advance, IntcodeInstruction.length]
  | LessThan one two out =>
    simp only [IntcodeComputer.step, hdec, exceptBind_ok] at hstep
    cases h1 : one.get_value c with
    | error e => rw [h1, exceptBind_error] at hstep; exact absurd hstep (exceptError_ne_ok _ _)
    | ok v1 =>
    rw [h1, exceptBind_ok] at hstep
    cases h2 : two.get_value c with
    | error e => rw [h2, exceptBind_error] at hstep; exact absurd hstep (exceptError_ne_ok _ _)
    | ok v2 =>
    rw [h2, exceptBind_ok] at hstep
    cases h3 : expectAddress (out.get_address c) with
    | error e => rw [h3, exceptBind_error] at hstep; exact absurd hstep (exceptError_ne_ok _ _)
    | ok addr =>
    rw [h3, exceptBind_ok] at hstep
    simp only [exceptPure, Except.ok.injEq, StepResult.running.injEq] at hstep
    subst hstep
    simp [jumpResolved, IntcodeComputer.advance, IntcodeInstruction.length]
  | Equals one two out =>
    simp only [IntcodeComputer.step, hdec, exceptBind_ok] at hstep
    cases h1 : one.get_value c with
    | error e => rw [h1, exceptBind_error] at hstep; exact absurd hstep (exceptError_ne_ok _ _)
    | ok v1 =>
    rw [h1, exceptBind_ok] at hstep
    cases h2 : two.get_value c with
    | error e => rw [h2, exceptBind_error] at hstep; exact absurd hstep (exceptError_ne_ok _ _)
    | ok v2 =>
    rw [h2, exceptBind_ok] at hstep
    cases h3 : expectAddress (out.get_address c) with
    | error e => rw [h3, exceptBind_error] at hstep; exact absurd hstep (exceptError_ne_ok _ _)
    | ok addr =>
    rw [h3, exceptBind_ok] at hstep
    simp only [exceptPure, Except.ok.injEq, StepResult.running.injEq] at hstep
    subst hstep
    simp [jumpResolved, IntcodeComputer.advance, IntcodeInstruction.length]
  | RelativeBaseOffset offsetP =>
    simp only [IntcodeComputer.step, hdec, exceptBind_ok] at hstep
    cases h1 : offsetP.get_value c with
    | error e => rw [h1, exceptBind_error] at hstep; exact absurd hstep (exceptError_ne_ok _ _)
    | ok off =>
    rw [h1, exceptBind_ok] at hstep
    simp only [exceptPure, Except.ok.injEq, StepResult.running.injEq] at hstep
    subst hstep
    simp [jumpResolved, IntcodeComputer.advance, IntcodeInstruction.length]
  | Halt =>
    simp only [IntcodeComputer.step, hdec, exceptBind_ok] at hstep
    simp only [exceptPure, Except.ok.injEq] at hstep
    exact absurd hstep (fun h => StepResult.noConfusion h)

end Intcode

namespace Intcode

/-- C1 counterexample: the program `[1105, 1, 0]` at pointer 0 decodes to
`JumpIfTrue (Value 1) (Value 0)` — a taken jump whose target 0 is the
address of the jump instruction itself.  The claim says the pointer after
the step equals the jump target 0; the code instead leaves the pointer at
3 = 0 + 3, because its `pointer == pointer_before` check mistakes the
self-targeting jump for a non-jump and advances by the length. -/
theorem self_jump_counterexample :
    IntcodeInstruction.decode
        { memory := { data := [1105, 1, 0] }, instruction_pointer := 0, relative_base := 0,
          input := none, output := none } =
      Except.ok (IntcodeInstruction.JumpIfTrue (IntcodeParameter.Value 1)
        (IntcodeParameter.Value 0)) ∧
    IntcodeComputer.step
        { memory := { data := [1105, 1, 0] }, instruction_pointer := 0, relative_base := 0,
          input := none, output := none } =
      Except.ok (StepResult.running
        { memory := { data := [1105, 1, 0] }, instruction_pointer := 3, relative_base := 0,
          input := none, output := none }) ∧
    (3 : Nat) ≠ 0 :=
  ⟨rfl, rfl, by decide⟩

/-- C1 witness: a taken jump to a target different from its own address —
`[1105, 1, 7]` at pointer 0 jumps to 7, and the pointer is not further
advanced. -/
theorem step_pointer_advance_witness :
    ({ memory := { data := [1105, 1, 7] }, instruction_pointer := 7, relative_base := 0,
        input := none, output := none } : IntcodeComputer).instruction_pointer =
      match jumpResolved (IntcodeComputer.fromProgram { data := [1105, 1, 7] })
          (IntcodeInstruction.JumpIfTrue (IntcodeParameter.Value 1)
            (IntcodeParameter.Value 7)) with
      | some target =>
          if target = (IntcodeComputer.fromProgram
              { data := [1105, 1, 7] }).instruction_pointer then
            (IntcodeComputer.fromProgram { data := [1105, 1, 7] }).instruction_pointer +
              (IntcodeInstruction.JumpIfTrue (IntcodeParameter.Value 1)
                (IntcodeParameter.Value 7)).length
          else target
      | none =>
          (IntcodeComputer.fromProgram { data := [1105, 1, 7] }).instruction_pointer +
            (IntcodeInstruction.JumpIfTrue (IntcodeParameter.Value 1)
              (IntcodeParameter.Value 7)).length :=
  step_pointer_advance (IntcodeComputer.fromProgram { data := [1105, 1, 7] })
    { memory := { data := [1105, 1, 7] }, instruction_pointer := 7, relative_base := 0,
      input := none, output := none }
    (IntcodeInstruction.JumpIfTrue (IntcodeParameter.Value 1) (IntcodeParameter.Value 7))
    rfl rfl

/-- C8: the program text `1,0,0,0,99` loads to memory `[1, 0, 0, 0, 99]`,
and running it to completion (the add writes 1 + 1 = 2 to address 0, then
Halt executes) ends with memory exactly `[2, 0, 0, 0, 99]`. -/
theorem add_program_example :
    IntcodeProgram.fromText ("1,0,0,0,99".data) = some { data := [1, 0, 0, 0, 99] } ∧
    IntcodeComputer.run 2 (IntcodeComputer.fromProgram { data := [1, 0, 0, 0, 99] }) =
      Except.ok (some
        { memory := { data := [2, 0, 0, 0, 99] }, instruction_pointer := 4, relative_base := 0,
          input := none, output := none }) :=
  ⟨rfl, rfl⟩

end Intcode

namespace Intcode

theorem dropWhile_append_all {p : Char → Bool} :
    ∀ (l r : List Char), (∀ c ∈ l, p c = true) → (l ++ r).dropWhile p = r.dropWhile p
  | [], r, _ => rfl
  | a :: l, r, h => by
    rw [List.cons_append, List.dropWhile_cons, if_pos (h a (by simp))]
    exact dropWhile_append_all l r (fun c hc => h c (by simp [hc]))

theorem dropWhile_cons_false {p : Char → Bool} (c : Char) (l : List Char) (h : p c = false) :
    (c :: l).dropWhile p = c :: l := by
  rw [List.dropWhile_cons, if_neg (by simp [h])]

/-- `trimChars` strips exactly the whitespace wrapping of a token body whose
first and last characters are not whitespace. -/
theorem trimChars_wrap (ws1 ws2 body init tb : List Char) (b z : Char)
    (h1 : ∀ c ∈ ws1, c.isWhitespace = true)
    (h2 : ∀ c ∈ ws2, c.isWhitespace = true)
    (hhead : body = b :: tb) (hb : b.isWhitespace = false)
    (hlastd : body = init ++ [z]) (hz : z.isWhitespace = false) :
    trimChars (ws1 ++ body ++ ws2) = body := by
  unfold trimChars
  rw [List.append_assoc, dropWhile_append_all ws1 _ h1]
  rw [hhead, List.cons_append, dropWhile_cons_false _ _ hb, ← List.cons_append, ← hhead]
  rw [List.reverse_append, dropWhile_append_all _ _ (fun c hc => h2 c (List.mem_reverse.mp hc))]
  rw [hlastd, List.reverse_append]
  simp only [List.reverse_singleton, List.singleton_append]
  rw [dropWhile_cons_false _ _ hz]
  simp [List.reverse_append]

theorem splitOnComma_no_comma (t : List Char) (h : ¬ (',' ∈ t)) : splitOnComma t = [t] := by
  induction t with
  | nil => rfl
  | cons c l ih =>
    have hc : ¬ c = ',' := fun hc => h (by simp [hc])
    have hl : ¬ (',' ∈ l) := fun hl => h (by simp [hl])
    simp [splitOnComma, hc, ih hl]

theorem splitOnComma_append (t rest : List Char) (h : ¬ (',' ∈ t)) :
    splitOnComma (t ++ ',' :: rest) = t :: splitOnComma rest := by
  induction t with
  | nil => simp [splitOnComma]
  | cons c l ih =>
    have hc : ¬ c = ',' := fun hc => h (by simp [hc])
    have hl : ¬ (',' ∈ l) := fun hl => h (by simp [hl])
    simp [splitOnComma, hc, ih hl]

theorem splitOnComma_joinComma (ts : List (List Char)) (h : ∀ t ∈ ts, ¬ (',' ∈ t))
    (hne : ts ≠ []) : splitOnComma (joinComma ts) = ts := by
  induction ts with
  | nil => cases hne rfl
  | cons t rest ih =>
    cases rest with
    | nil => simp [joinComma, splitOnComma_no_comma t (h t (by simp))]
    | cons t2 rest2 =>
      rw [show joinComma (t :: t2 :: rest2) = t ++ ',' :: joinComma (t2 :: rest2) from rfl]
      rw [splitOnComma_append _ _ (h t (by simp))]
      rw [ih (fun u hu => h u (by simp [hu])) (by simp)]

theorem digit_not_whitespace (c : Char) (h : c.isDigit = true) : c.isWhitespace = false := by
  by_contra hw
  rw [Bool.not_eq_false] at hw
  simp only [Char.isWhitespace, Bool.or_eq_true, decide_eq_true_eq] at hw
  rcases hw with ((rfl | rfl) | rfl) | rfl <;> exact absurd h (by decide)

theorem parseI64_of_signedDecimal (cs : List Char) (x : Int) (h : SignedDecimal cs x) :
    parseI64 cs = some x := by
  obtain ⟨ds, hne, hdig, hcase⟩ := h
  have hds : isDigits ds = true := by
    cases ds with
    | nil => cases hne rfl
    | cons d rest =>
      simpa [isDigits, List.all_eq_true] using fun c hc => hdig c hc
  rcases hcase with ⟨rfl, rfl⟩ | ⟨rfl, rfl⟩ | ⟨rfl, rfl⟩
  · obtain ⟨d, rest, rfl⟩ := List.exists_cons_of_ne_nil hne
    have hd : d.isDigit = true := hdig d (by simp)
    have hplus : ¬ d = '+' := fun hh => by subst hh; exact absurd hd (by decide)
    have hminus : ¬ d = '-' := fun hh => by subst hh; exact absurd hd (by decide)
    simp [parseI64, hplus, hminus, hds]
  · simp [parseI64, hds]
  · simp [parseI64, hds]

theorem parseAll_of_forall₂ (ts : List (List Char)) (xs : List Int)
    (h : List.Forall₂ SignedDecimal ts xs) : parseAll ts = some xs := by
  induction h with
  | nil => rfl
  | cons hd tl ih => simp [parseAll, parseI64_of_signedDecimal _ _ hd, ih]

/-- Shape facts of a signed decimal token: it is non-empty, contains no
comma, and starts and ends with a non-whitespace character. -/
theorem signedDecimal_shape (cs : List Char) (x : Int) (h : SignedDecimal cs x) :
    ¬ (',' ∈ cs) ∧
    (∃ b tb, cs = b :: tb ∧ b.isWhitespace = false) ∧
    (∃ init z, cs = init ++ [z] ∧ z.isWhitespace = false) := by
  obtain ⟨ds, hne, hdig, hcase⟩ := h
  have hcomma : ¬ (',' ∈ ds) := fun hm => absurd (hdig ',' hm) (by decide)
  have hlastmem : ds.getLast hne ∈ ds := List.getLast_mem hne
  have hlastd : ds = ds.dropLast ++ [ds.getLast hne] := (List.dropLast_append_getLast hne).symm
  have hlastw : (ds.getLast hne).isWhitespace = false :=
    digit_not_whitespace _ (hdig _ hlastmem)
  obtain ⟨d, rest, hdr⟩ := List.exists_cons_of_ne_nil hne
  have hd : d.isDigit = true := hdig d (by simp [hdr])
  rcases hcase with ⟨rfl, rfl⟩ | ⟨rfl, rfl⟩ | ⟨rfl, rfl⟩
  · exact ⟨hcomma,
      ⟨d, rest, hdr, digit_not_whitespace d hd⟩,
      ⟨_, _, hlastd, hlastw⟩⟩
  · refine ⟨fun hm => ?_, ⟨'+', ds, rfl, by decide⟩,
      ⟨'+' :: ds.dropLast, ds.getLast hne, ?_, hlastw⟩⟩
    · rcases List.mem_cons.mp hm with hm | hm
      · exact absurd hm (by decide)
      · exact hcomma hm
    · rw [List.cons_append, ← hlastd]
  · refine ⟨fun hm => ?_, ⟨'-', ds, rfl, by decide⟩,
      ⟨'-' :: ds.dropLast, ds.getLast hne, ?_, hlastw⟩⟩
    · rcases List.mem_cons.mp hm with hm | hm
      · exact absurd hm (by decide)
      · exact hcomma hm
    · rw [List.cons_append, ← hlastd]

/-- The joined token sequence starts with the first token's first character. -/
theorem joinComma_head (t : List Char) (ts : List (List Char)) (b : Char) (tb : List Char)
    (hht : t = b :: tb) : ∃ tl, joinComma (t :: ts) = b :: tl := by
  cases ts with
  | nil => exact ⟨tb, by simp [joinComma, hht]⟩
  | cons t2 rest =>
    exact ⟨tb ++ ',' :: joinComma (t2 :: rest), by simp [joinComma, hht]⟩

/-- The joined token sequence ends with the last token's last character. -/
theorem joinComma_last (ts : List (List Char)) (init : List Char) (z : Char) :
    ∀ t, t = init ++ [z] → ∀ hne : ts ≠ [], ts.getLast hne = t →
      ∃ pre, joinComma ts = pre ++ [z] := by
  induction ts with
  | nil => intro t _ hne; cases hne rfl
  | cons u rest ih =>
    intro t hti hne hlast
    cases rest with
    | nil =>
      refine ⟨init, ?_⟩
      simp only [List.getLast_singleton] at hlast
      simp [joinComma, hlast, hti]
    | cons u2 rest2 =>
      rw [List.getLast_cons (by simp)] at hlast
      obtain ⟨pre, hpre⟩ := ih t hti (by simp) hlast
      refine ⟨u ++ ',' :: pre, ?_⟩
      rw [show joinComma (u :: u2 :: rest2) = u ++ ',' :: joinComma (u2 :: rest2) from rfl]
      rw [hpre]
      simp

/-- C7: loading any program text that is a comma-separated sequence of
signed decimal integer tokens, optionally surrounded by whitespace, places
exactly the denoted integers into Program Memory in order (the first at
address 0). -/
theorem fromText_parses (ws1 ws2 : List Char) (tokens : List (List Char)) (xs : List Int)
    (h1 : ∀ c ∈ ws1, c.isWhitespace = true)
    (h2 : ∀ c ∈ ws2, c.isWhitespace = true)
    (hrep : List.Forall₂ SignedDecimal tokens xs)
    (hne : tokens ≠ []) :
    IntcodeProgram.fromText (ws1 ++ joinComma tokens ++ ws2) =
      some (IntcodeProgram.mk xs) := by
  have hshape : ∀ t ∈ tokens, ¬ (',' ∈ t) ∧
      (∃ b tb, t = b :: tb ∧ b.isWhitespace = false) ∧
      (∃ init z, t = init ++ [z] ∧ z.isWhitespace = false) := by
    intro t ht
    clear hne
    induction hrep with
    | nil => cases ht
    | cons hd tl ih =>
      rcases List.mem_cons.mp ht with rfl | ht2
      · exact signedDecimal_shape _ _ hd
      · exact ih ht2
  obtain ⟨t0, rest0, rfl⟩ := List.exists_cons_of_ne_nil hne
  obtain ⟨-, ⟨b, tb, hht, hb⟩, -⟩ := hshape t0 (by simp)
  have hlastTok : (t0 :: rest0).getLast (by simp) ∈ t0 :: rest0 := List.getLast_mem _
  obtain ⟨-, -, ⟨init, z, hiz, hz⟩⟩ := hshape _ hlastTok
  obtain ⟨tl, hjoinHead⟩ := joinComma_head t0 rest0 b tb hht
  obtain ⟨pre, hjoinLast⟩ := joinComma_last (t0 :: rest0) init z _ hiz (by simp) rfl
  unfold IntcodeProgram.fromText
  rw [trimChars_wrap ws1 ws2 (joinComma (t0 :: rest0)) pre tl b z h1 h2 hjoinHead hb
    hjoinLast hz]
  rw [splitOnComma_joinComma _ (fun u hu => (hshape u hu).1) (by simp)]
  rw [parseAll_of_forall₂ _ _ hrep]
  rfl

/-- C7 witness: the text `" 1,-2\n"` — two signed decimal tokens wrapped in
whitespace — loads to the program `[1, -2]`. -/
theorem fromText_parses_witness :
    IntcodeProgram.fromText ([' '] ++ joinComma [['1'], ['-', '2']] ++ ['\n']) =
      some (IntcodeProgram.mk [1, -2]) :=
  fromText_parses [' '] ['\n'] [['1'], ['-', '2']] [1, -2]
    (by decide) (by decide)
    (List.Forall₂.cons ⟨['1'], by decide, by decide, Or.inl ⟨rfl, by decide⟩⟩
      (List.Forall₂.cons ⟨['2'], by decide, by decide, Or.inr (Or.inr ⟨rfl, by decide⟩)⟩
        List.Forall₂.nil))
    (by decide)

end Intcode
